import Mathlib

/-!
Verification of the DataEngineerTools scraping exercises.

Shallow embedding of:
* `HTTPRequester._request_with_retry` / `ImprovedHTTPRequester._request_with_retry`
  (src/1Introduction/Part4_exo1.py, Part4_exo3.py),
* `remove_extra_spaces` and `extract_domain` (src/1Introduction/Part4_exo2.py),
* `ImprovedHTTPRequester.parse_page` main-text cleaning (src/1Introduction/Part4_exo3.py),
* `RSSNewsScraper.scrape_article` body selection and image harvesting
  (src/1Introduction/Part4_exo_final.py).
-/

/-! ## Retry layer: `_request_with_retry`

The Python method issues `self.session.request(...)`; on an exception it compares
`current_attempt >= max_retries` (raise) and otherwise sleeps `retry_delay`
seconds and recurses with `current_attempt + 1`.  The transport is modelled as a
function from the attempt index (0-based) to either an error or a response body.
`max_retries` is a Python `int`, so it is modelled as `Int`. -/

/-- Observable outcome of one call to `_request_with_retry`: the returned
response or raised error, the number of HTTP requests issued, and the log of
`time.sleep(retry_delay)` durations in order. -/
structure RetryTrace where
  result : Except String String
  attempts : Nat
  sleeps : List ℚ

/-- `_request_with_retry` of Part4_exo1.py lines 67-106 and Part4_exo3.py lines
194-237 (the two bodies implement the identical try/except/sleep/recurse logic;
exo3 additionally re-rotates the user agent before the recursive call, which
does not affect the trace fields modelled here). -/
def requestWithRetry (transport : Nat → Except String String) (maxRetries : Int)
    (retryDelay : ℚ) (currentAttempt : Nat) : RetryTrace :=
  match transport currentAttempt with
  | Except.ok r => ⟨Except.ok r, 1, []⟩
  | Except.error e =>
    if (currentAttempt : Int) ≥ maxRetries then
      ⟨Except.error e, 1, []⟩
    else
      let r' := requestWithRetry transport maxRetries retryDelay (currentAttempt + 1)
      ⟨r'.result, r'.attempts + 1, retryDelay :: r'.sleeps⟩
termination_by maxRetries.toNat - currentAttempt
decreasing_by simp_wf; omega

/-- `get`/`post` enter `_request_with_retry` with `current_attempt = 0`. -/
def requestRetry (transport : Nat → Except String String) (maxRetries : Int)
    (retryDelay : ℚ) : RetryTrace :=
  requestWithRetry transport maxRetries retryDelay 0

/-- A transport that fails deterministically on the first `n` attempts with
error `e` and then always succeeds with response `r`. -/
def failsThen (n : Nat) (e r : String) : Nat → Except String String :=
  fun i => if i < n then Except.error e else Except.ok r

theorem requestWithRetry_failsThen_ok (d : ℚ) (e r : String) (m : Int) :
    ∀ (k a n : Nat), n = a + k → (n : Int) ≤ m →
      requestWithRetry (failsThen n e r) m d a =
        ⟨Except.ok r, k + 1, List.replicate k d⟩ := by
  intro k
  induction k with
  | zero =>
    intro a n hn _
    rw [requestWithRetry]
    simp [failsThen, hn]
  | succ k ih =>
    intro a n hn hm
    have ha : a < n := by omega
    have hguard : ¬ ((a : Int) ≥ m) := by
      have : (a : Int) < (n : Int) := by exact_mod_cast ha
      omega
    rw [requestWithRetry]
    simp only [failsThen, if_pos ha, hguard, if_false, ite_false]
    rw [ih (a + 1) n (by omega) hm]
    simp [List.replicate_succ]

theorem requestWithRetry_failsThen_error (d : ℚ) (e r : String) (n : Nat) :
    ∀ (k a : Nat) (m : Int), (a : Int) + k = m → m < (n : Int) →
      requestWithRetry (failsThen n e r) m d a =
        ⟨Except.error e, k + 1, List.replicate k d⟩ := by
  intro k
  induction k with
  | zero =>
    intro a m hm hn
    have ha : a < n := by
      have : (a : Int) < (n : Int) := by omega
      exact_mod_cast this
    rw [requestWithRetry]
    simp only [failsThen, if_pos ha]
    have hguard : (a : Int) ≥ m := by omega
    simp [hguard]
  | succ k ih =>
    intro a m hm hn
    have ha : a < n := by
      have : (a : Int) < (n : Int) := by omega
      exact_mod_cast this
    have hguard : ¬ ((a : Int) ≥ m) := by omega
    rw [requestWithRetry]
    simp only [failsThen, if_pos ha, hguard, if_false, ite_false]
    rw [ih (a + 1) m (by push_cast; omega) hn]
    simp [List.replicate_succ]

/-- C1: against a transport that fails deterministically on the first `n`
attempts and then succeeds, a fetch with `max_retries = m ≥ n` returns the
successful response after exactly `n + 1` issued attempts (having slept
`retry_delay` seconds, unchanged, between consecutive attempts), and a fetch
with `max_retries = m < n` raises the fetch error after exactly `m + 1` issued
attempts with a fixed `retry_delay` sleep between consecutive attempts. -/
theorem retry_failsThen_spec (n m : Nat) (d : ℚ) (e r : String) :
    (n ≤ m → requestRetry (failsThen n e r) (m : Int) d =
      ⟨Except.ok r, n + 1, List.replicate n d⟩)
    ∧ (m < n → requestRetry (failsThen n e r) (m : Int) d =
      ⟨Except.error e, m + 1, List.replicate m d⟩) := by
  constructor
  · intro h
    exact requestWithRetry_failsThen_ok d e r (m : Int) n 0 n (by omega) (by exact_mod_cast h)
  · intro h
    exact requestWithRetry_failsThen_error d e r n m 0 (m : Int) (by push_cast; omega)
      (by exact_mod_cast h)

/-- Witness for C1: with a transport failing twice then succeeding,
`max_retries = 3` succeeds in 3 attempts with 2 sleeps, and `max_retries = 1`
fails in 2 attempts with 1 sleep. -/
theorem retry_failsThen_spec_witness :
    requestRetry (failsThen 2 "boom" "resp") ((3 : Nat) : Int) 1 =
      ⟨Except.ok "resp", 3, List.replicate 2 1⟩
    ∧ requestRetry (failsThen 2 "boom" "resp") ((1 : Nat) : Int) 1 =
      ⟨Except.error "boom", 2, List.replicate 1 1⟩ :=
  ⟨(retry_failsThen_spec 2 3 1 "boom" "resp").1 (by norm_num),
   (retry_failsThen_spec 2 1 1 "boom" "resp").2 (by norm_num)⟩

/-- C9: for `max_retries ≤ 0` (including negative values) exactly one HTTP
request is still issued and its outcome is returned/raised immediately with no
sleep; moreover at least one attempt is always made for every `max_retries`. -/
theorem retry_nonpositive_single_attempt (transport : Nat → Except String String)
    (m : Int) (d : ℚ) :
    (m ≤ 0 → requestRetry transport m d = ⟨transport 0, 1, []⟩)
    ∧ 1 ≤ (requestRetry transport m d).attempts := by
  constructor
  · intro hm
    rw [requestRetry, requestWithRetry]
    match h : transport 0 with
    | Except.ok r => simp
    | Except.error e => simp [hm]
  · rw [requestRetry, requestWithRetry]
    cases h : transport 0 with
    | ok r => simp
    | error e =>
      dsimp only
      split
      · simp
      · simp

/-- Witness for C9: `max_retries = -1` on an always-failing transport issues
exactly one attempt, raises, and never sleeps. -/
theorem retry_nonpositive_single_attempt_witness :
    requestRetry (failsThen 5 "down" "never") (-1) 1 = ⟨Except.error "down", 1, []⟩ := by
  have h := (retry_nonpositive_single_attempt (failsThen 5 "down" "never") (-1) 1).1
    (by norm_num)
  simpa [failsThen] using h

/-! ## Text normalization: `remove_extra_spaces` (Part4_exo2.py lines 7-36)

The Python function returns empty input unchanged, replaces runs of spaces
(`re.sub(r' +', ' ', ...)`) and runs of newlines (`re.sub(r'\n+', '\n', ...)`)
by a single character, strips each line, drops empty lines and rejoins with
`'\n'`.  Strings are modelled through their character lists. -/

/-- Python `str.strip()` whitespace class, restricted to the ASCII whitespace
characters (the full Python class also strips some further Unicode whitespace;
that difference does not affect any claim settled here). -/
def pyIsSpaceChar (c : Char) : Bool :=
  c = ' ' || c = '\t' || c = '\n' || c = '\r' || c = '\x0b' || c = '\x0c'

/-- Python `str.strip()`: remove leading and trailing whitespace. -/
def pyStripL (l : List Char) : List Char :=
  ((l.dropWhile pyIsSpaceChar).reverse.dropWhile pyIsSpaceChar).reverse

/-- `re.sub(c+, c, ...)` for a single character `c`: collapse each maximal run
of `c` to one occurrence. -/
def collapseRuns (c : Char) : List Char → List Char
  | [] => []
  | [a] => [a]
  | a :: b :: rest =>
    if a = c ∧ b = c then collapseRuns c (b :: rest)
    else a :: collapseRuns c (b :: rest)

/-- Python `str.split(c)` for a one-character separator. -/
def splitOnChar (c : Char) : List Char → List (List Char)
  | [] => [[]]
  | a :: rest =>
    match splitOnChar c rest with
    | [] => [[]]
    | h :: t => if a = c then [] :: h :: t else (a :: h) :: t

/-- Python `c.join(pieces)` for a one-character separator. -/
def joinLines (c : Char) : List (List Char) → List Char
  | [] => []
  | [l] => l
  | l :: l' :: rest => l ++ c :: joinLines c (l' :: rest)

/-- Body of `remove_extra_spaces` on a non-empty input, over character lists. -/
def removeExtraSpacesL (l : List Char) : List Char :=
  joinLines '\n'
    (((splitOnChar '\n' (collapseRuns '\n' (collapseRuns ' ' l))).map pyStripL).filter
      (fun line => decide (line ≠ [])))

/-- `remove_extra_spaces` (Part4_exo2.py lines 7-36): `if not text: return text`,
then collapse space runs, collapse newline runs, strip each line, drop empty
lines, rejoin with a single newline. -/
def remove_extra_spaces (text : String) : String :=
  if text = "" then text else (removeExtraSpacesL text.data).asString

/-- No two adjacent occurrences of `c`. -/
def NoAdjPair (c : Char) (l : List Char) : Prop :=
  l.Chain' (fun a b => ¬(a = c ∧ b = c))

theorem head?_collapseRuns (c : Char) : ∀ l, (collapseRuns c l).head? = l.head?
  | [] => rfl
  | [_] => rfl
  | a :: b :: rest => by
    rw [collapseRuns]
    split
    · rename_i hab
      rw [head?_collapseRuns c (b :: rest)]
      simp [hab.1, hab.2]
    · rfl

theorem collapseRuns_eq_self (c : Char) :
    ∀ l, NoAdjPair c l → collapseRuns c l = l
  | [], _ => rfl
  | [_], _ => rfl
  | a :: b :: rest, h => by
    have h' := List.chain'_cons.mp h
    rw [collapseRuns, if_neg h'.1, collapseRuns_eq_self c (b :: rest) h'.2]

theorem noAdjPair_collapseRuns (c : Char) : ∀ l, NoAdjPair c (collapseRuns c l)
  | [] => List.chain'_nil
  | [a] => List.chain'_singleton a
  | a :: b :: rest => by
    rw [collapseRuns]
    split
    · exact noAdjPair_collapseRuns c (b :: rest)
    · rename_i hab
      refine List.chain'_cons'.mpr ⟨?_, noAdjPair_collapseRuns c (b :: rest)⟩
      intro y hy
      rw [head?_collapseRuns] at hy
      simp only [List.head?_cons, Option.mem_def, Option.some.injEq] at hy
      subst hy
      exact hab

theorem noAdjPair_collapseRuns_preserved (c d : Char) :
    ∀ l, NoAdjPair d l → NoAdjPair d (collapseRuns c l)
  | [], _ => List.chain'_nil
  | [a], _ => List.chain'_singleton a
  | a :: b :: rest, h => by
    have h' := List.chain'_cons.mp h
    rw [collapseRuns]
    split
    · exact noAdjPair_collapseRuns_preserved c d (b :: rest) h'.2
    · refine List.chain'_cons'.mpr ⟨?_, noAdjPair_collapseRuns_preserved c d (b :: rest) h'.2⟩
      intro y hy
      rw [head?_collapseRuns] at hy
      simp only [List.head?_cons, Option.mem_def, Option.some.injEq] at hy
      subst hy
      exact h'.1

theorem splitOnChar_cons_eq (c a : Char) {rest h' : List Char} {t : List (List Char)}
    (hr : splitOnChar c rest = h' :: t) :
    splitOnChar c (a :: rest) = if a = c then [] :: h' :: t else (a :: h') :: t := by
  rw [splitOnChar, hr]

theorem splitOnChar_ne_nil (c : Char) : ∀ l, splitOnChar c l ≠ []
  | [] => by simp [splitOnChar]
  | a :: rest => by
    obtain ⟨h', t, hr⟩ : ∃ h' t, splitOnChar c rest = h' :: t := by
      cases hsp : splitOnChar c rest with
      | nil => exact absurd hsp (splitOnChar_ne_nil c rest)
      | cons x xs => exact ⟨x, xs, rfl⟩
    rw [splitOnChar_cons_eq c a hr]
    split <;> simp

theorem not_mem_of_mem_splitOnChar (c : Char) :
    ∀ l p, p ∈ splitOnChar c l → c ∉ p
  | [], p, hp => by
    rw [splitOnChar] at hp
    simp at hp
    simp [hp]
  | a :: rest, p, hp => by
    obtain ⟨h', t, hr⟩ : ∃ h' t, splitOnChar c rest = h' :: t := by
      cases hsp : splitOnChar c rest with
      | nil => exact absurd hsp (splitOnChar_ne_nil c rest)
      | cons x xs => exact ⟨x, xs, rfl⟩
    rw [splitOnChar_cons_eq c a hr] at hp
    by_cases hac : a = c
    · rw [if_pos hac] at hp
      rcases List.mem_cons.mp hp with rfl | hp'
      · simp
      · exact not_mem_of_mem_splitOnChar c rest p (by rw [hr]; exact hp')
    · rw [if_neg hac] at hp
      rcases List.mem_cons.mp hp with rfl | hp'
      · intro hc
        rcases List.mem_cons.mp hc with hc' | hc'
        · exact hac hc'.symm
        · exact not_mem_of_mem_splitOnChar c rest h'
            (by rw [hr]; exact List.mem_cons_self _ _) hc'
      · exact not_mem_of_mem_splitOnChar c rest p
          (by rw [hr]; exact List.mem_cons_of_mem _ hp')

theorem splitOnChar_head_isPre (c : Char) :
    ∀ l h t, splitOnChar c l = h :: t → h <+: l
  | [], h, t, heq => by
    rw [splitOnChar] at heq
    cases heq
    exact List.nil_prefix
  | a :: rest, h, t, heq => by
    obtain ⟨h', t', hr⟩ : ∃ h' t', splitOnChar c rest = h' :: t' := by
      cases hsp : splitOnChar c rest with
      | nil => exact absurd hsp (splitOnChar_ne_nil c rest)
      | cons x xs => exact ⟨x, xs, rfl⟩
    rw [splitOnChar_cons_eq c a hr] at heq
    by_cases hac : a = c
    · rw [if_pos hac] at heq
      cases heq
      exact List.nil_prefix
    · rw [if_neg hac] at heq
      have hpre := splitOnChar_head_isPre c rest h' t' hr
      cases heq
      exact List.cons_prefix_cons.mpr ⟨rfl, hpre⟩

theorem isInfix_of_mem_splitOnChar (c : Char) :
    ∀ l p, p ∈ splitOnChar c l → p <:+: l
  | [], p, hp => by
    rw [splitOnChar] at hp
    simp at hp
    simp [hp]
  | a :: rest, p, hp => by
    obtain ⟨h', t, hr⟩ : ∃ h' t, splitOnChar c rest = h' :: t := by
      cases hsp : splitOnChar c rest with
      | nil => exact absurd hsp (splitOnChar_ne_nil c rest)
      | cons x xs => exact ⟨x, xs, rfl⟩
    rw [splitOnChar_cons_eq c a hr] at hp
    by_cases hac : a = c
    · rw [if_pos hac] at hp
      rcases List.mem_cons.mp hp with rfl | hp'
      · exact List.nil_infix
      · exact (isInfix_of_mem_splitOnChar c rest p (by rw [hr]; exact hp')).trans
          (List.suffix_cons a rest).isInfix
    · rw [if_neg hac] at hp
      rcases List.mem_cons.mp hp with rfl | hp'
      · have hpre := splitOnChar_head_isPre c rest h' t hr
        exact (List.cons_prefix_cons.mpr ⟨rfl, hpre⟩).isInfix
      · exact (isInfix_of_mem_splitOnChar c rest p
          (by rw [hr]; exact List.mem_cons_of_mem _ hp')).trans (List.suffix_cons a rest).isInfix

theorem splitOnChar_no_sep (c : Char) : ∀ l, c ∉ l → splitOnChar c l = [l]
  | [], _ => by rw [splitOnChar]
  | a :: rest, h => by
    have hac : ¬ (a = c) := fun hh => h (hh ▸ List.mem_cons_self a rest)
    have hrest : c ∉ rest := fun hh => h (List.mem_cons_of_mem a hh)
    rw [splitOnChar_cons_eq c a (splitOnChar_no_sep c rest hrest), if_neg hac]

theorem splitOnChar_append_sep (c : Char) :
    ∀ l₁ l₂, c ∉ l₁ → splitOnChar c (l₁ ++ c :: l₂) = l₁ :: splitOnChar c l₂
  | [], l₂, _ => by
    obtain ⟨h', t, hr⟩ : ∃ h' t, splitOnChar c l₂ = h' :: t := by
      cases hsp : splitOnChar c l₂ with
      | nil => exact absurd hsp (splitOnChar_ne_nil c l₂)
      | cons x xs => exact ⟨x, xs, rfl⟩
    rw [List.nil_append, splitOnChar_cons_eq c c hr, if_pos rfl, hr]
  | a :: l₁, l₂, h => by
    have hac : ¬ (a = c) := fun hh => h (hh ▸ List.mem_cons_self a l₁)
    have hl₁ : c ∉ l₁ := fun hh => h (List.mem_cons_of_mem a hh)
    rw [List.cons_append,
      splitOnChar_cons_eq c a (splitOnChar_append_sep c l₁ l₂ hl₁), if_neg hac]

theorem head?_joinLines (c : Char) (p : List Char) (t : List (List Char)) (hp : p ≠ []) :
    (joinLines c (p :: t)).head? = p.head? := by
  cases t with
  | nil => rfl
  | cons p' t' =>
    rw [joinLines]
    exact List.head?_append_of_ne_nil p hp

theorem splitOnChar_joinLines (c : Char) :
    ∀ ps, (∀ p ∈ ps, c ∉ p) → ps ≠ [] → splitOnChar c (joinLines c ps) = ps
  | [], _, hne => absurd rfl hne
  | [p], h, _ => by
    rw [joinLines, splitOnChar_no_sep c p (h p (List.mem_cons_self _ _))]
  | p :: p' :: t, h, _ => by
    rw [joinLines, splitOnChar_append_sep c p _ (h p (List.mem_cons_self _ _)),
      splitOnChar_joinLines c (p' :: t) (fun q hq => h q (List.mem_cons_of_mem _ hq))
        (by simp)]

theorem chain'_joinLines {R : Char → Char → Prop} (c : Char) :
    ∀ ps, (∀ p ∈ ps, p ≠ []) → (∀ p ∈ ps, List.Chain' R p) →
      (∀ p ∈ ps, ∀ x ∈ p.getLast?, R x c) → (∀ p ∈ ps, ∀ y ∈ p.head?, R c y) →
      List.Chain' R (joinLines c ps)
  | [], _, _, _, _ => List.chain'_nil
  | [p], _, hc, _, _ => hc p (List.mem_cons_self _ _)
  | p :: p' :: t, hne, hc, hb1, hb2 => by
    rw [joinLines]
    refine List.chain'_append.mpr ⟨hc p (List.mem_cons_self _ _), ?_, ?_⟩
    · refine List.chain'_cons'.mpr ⟨?_, ?_⟩
      · intro y hy
        rw [head?_joinLines c p' t (hne p' (by simp))] at hy
        exact hb2 p' (by simp) y hy
      · exact chain'_joinLines c (p' :: t)
          (fun q hq => hne q (List.mem_cons_of_mem _ hq))
          (fun q hq => hc q (List.mem_cons_of_mem _ hq))
          (fun q hq => hb1 q (List.mem_cons_of_mem _ hq))
          (fun q hq => hb2 q (List.mem_cons_of_mem _ hq))
    · intro x hx y hy
      simp only [List.head?_cons, Option.mem_def, Option.some.injEq] at hy
      subst hy
      exact hb1 p (List.mem_cons_self _ _) x hx

theorem noAdjPair_of_not_mem {c : Char} : ∀ l, c ∉ l → NoAdjPair c l
  | [], _ => List.chain'_nil
  | a :: rest, h => by
    refine List.chain'_cons'.mpr ⟨?_, noAdjPair_of_not_mem rest (fun hh => h (List.mem_cons_of_mem _ hh))⟩
    intro y _
    exact fun hh => h (hh.1 ▸ List.mem_cons_self a rest)

theorem dropWhile_eq_self_of_head {p : Char → Bool} :
    ∀ l : List Char, (∀ a ∈ l.head?, p a = false) → l.dropWhile p = l
  | [], _ => rfl
  | a :: rest, h => by
    have ha : p a = false := h a rfl
    simp [List.dropWhile_cons, ha]

theorem head_dropWhile_false {p : Char → Bool} :
    ∀ l : List Char, ∀ a ∈ (l.dropWhile p).head?, p a = false
  | [], a, ha => by simp at ha
  | b :: rest, a, ha => by
    rw [List.dropWhile_cons] at ha
    by_cases hb : p b
    · rw [if_pos hb] at ha
      exact head_dropWhile_false rest a ha
    · rw [if_neg hb] at ha
      simp only [List.head?_cons, Option.mem_def, Option.some.injEq] at ha
      subst ha
      simpa using hb

theorem dropWhile_dropWhile_eq {p : Char → Bool} (l : List Char) :
    (l.dropWhile p).dropWhile p = l.dropWhile p :=
  dropWhile_eq_self_of_head _ (head_dropWhile_false l)

/-- The trailing-whitespace half of `str.strip()`. -/
def pyDropEnd (l : List Char) : List Char :=
  (l.reverse.dropWhile pyIsSpaceChar).reverse

theorem pyStripL_eq (l : List Char) :
    pyStripL l = pyDropEnd (l.dropWhile pyIsSpaceChar) := rfl

theorem pyDropEnd_isPre (l : List Char) : pyDropEnd l <+: l := by
  refine List.reverse_suffix.mp ?_
  rw [pyDropEnd, List.reverse_reverse]
  exact List.dropWhile_suffix _

theorem pyDropEnd_idem (l : List Char) : pyDropEnd (pyDropEnd l) = pyDropEnd l := by
  rw [pyDropEnd, pyDropEnd, List.reverse_reverse, dropWhile_dropWhile_eq]

theorem pyStripL_idem (l : List Char) : pyStripL (pyStripL l) = pyStripL l := by
  rw [pyStripL_eq l, pyStripL_eq]
  have hfix : (pyDropEnd (l.dropWhile pyIsSpaceChar)).dropWhile pyIsSpaceChar =
      pyDropEnd (l.dropWhile pyIsSpaceChar) := by
    apply dropWhile_eq_self_of_head
    intro a ha
    obtain ⟨w, hw⟩ := pyDropEnd_isPre (l.dropWhile pyIsSpaceChar)
    by_cases hnil : pyDropEnd (l.dropWhile pyIsSpaceChar) = []
    · rw [hnil] at ha
      simp at ha
    · have hh : (pyDropEnd (l.dropWhile pyIsSpaceChar) ++ w).head? =
          (pyDropEnd (l.dropWhile pyIsSpaceChar)).head? :=
        List.head?_append_of_ne_nil _ hnil
      rw [hw] at hh
      exact head_dropWhile_false l a (by rw [hh]; exact ha)
  rw [hfix, pyDropEnd_idem]

theorem pyStripL_isInfix (l : List Char) : pyStripL l <:+: l := by
  rw [pyStripL_eq]
  exact (pyDropEnd_isPre _).isInfix.trans (List.dropWhile_suffix _).isInfix

theorem mem_of_mem_pyStripL {a : Char} {l : List Char} (h : a ∈ pyStripL l) : a ∈ l :=
  (pyStripL_isInfix l).sublist.mem h

theorem removeExtraSpacesL_fix (l : List Char) :
    removeExtraSpacesL (removeExtraSpacesL l) = removeExtraSpacesL l := by
  set base := collapseRuns '\n' (collapseRuns ' ' l) with hbase
  set lines := ((splitOnChar '\n' base).map pyStripL).filter
    (fun line => decide (line ≠ [])) with hlines
  have hout : removeExtraSpacesL l = joinLines '\n' lines := rfl
  have hbase_sp : NoAdjPair ' ' base :=
    noAdjPair_collapseRuns_preserved '\n' ' ' _ (noAdjPair_collapseRuns ' ' l)
  have hmemlines : ∀ line ∈ lines, ∃ p, p ∈ splitOnChar '\n' base ∧ line = pyStripL p := by
    intro line hl
    rw [hlines] at hl
    obtain ⟨p, hp, rfl⟩ := List.mem_map.mp (List.mem_filter.mp hl).1
    exact ⟨p, hp, rfl⟩
  have hne : ∀ line ∈ lines, line ≠ [] := by
    intro line hl
    have := (List.mem_filter.mp (hlines ▸ hl)).2
    simpa using this
  have hnl : ∀ line ∈ lines, '\n' ∉ line := by
    intro line hl hc
    obtain ⟨p, hp, rfl⟩ := hmemlines line hl
    exact not_mem_of_mem_splitOnChar '\n' base p hp (mem_of_mem_pyStripL hc)
  have hsp : ∀ line ∈ lines, NoAdjPair ' ' line := by
    intro line hl
    obtain ⟨p, hp, rfl⟩ := hmemlines line hl
    have h1 : NoAdjPair ' ' p := hbase_sp.infix (isInfix_of_mem_splitOnChar '\n' base p hp)
    exact h1.infix (pyStripL_isInfix p)
  have hstrip : ∀ line ∈ lines, pyStripL line = line := by
    intro line hl
    obtain ⟨p, _, rfl⟩ := hmemlines line hl
    exact pyStripL_idem p
  by_cases hl0 : lines = []
  · rw [hout, hl0]
    rfl
  · rw [hout]
    have s1 : collapseRuns ' ' (joinLines '\n' lines) = joinLines '\n' lines := by
      apply collapseRuns_eq_self
      apply chain'_joinLines '\n' lines hne hsp
      · intro p _ x _ hcontra
        exact absurd hcontra.2 (by decide)
      · intro p _ y _ hcontra
        exact absurd hcontra.1 (by decide)
    have s2 : collapseRuns '\n' (joinLines '\n' lines) = joinLines '\n' lines := by
      apply collapseRuns_eq_self
      apply chain'_joinLines '\n' lines hne
      · intro p hp
        exact noAdjPair_of_not_mem p (hnl p hp)
      · intro p hp x hx hcontra
        exact hnl p hp (hcontra.1 ▸ List.mem_of_mem_getLast? hx)
      · intro p hp y hy hcontra
        exact hnl p hp (hcontra.2 ▸ List.mem_of_mem_head? hy)
    have s3 : splitOnChar '\n' (joinLines '\n' lines) = lines :=
      splitOnChar_joinLines '\n' lines hnl hl0
    have s4 : lines.map pyStripL = lines := by
      rw [List.map_congr_left hstrip]
      simp
    have s5 : lines.filter (fun line => decide (line ≠ [])) = lines :=
      List.filter_eq_self.mpr (fun a ha => by simpa using hne a ha)
    show joinLines '\n'
      (((splitOnChar '\n' (collapseRuns '\n' (collapseRuns ' ' (joinLines '\n' lines)))).map
        pyStripL).filter (fun line => decide (line ≠ []))) = joinLines '\n' lines
    rw [s1, s2, s3, s4, s5]

/-- C5: `remove_extra_spaces` is idempotent. -/
theorem remove_extra_spaces_idem (s : String) :
    remove_extra_spaces (remove_extra_spaces s) = remove_extra_spaces s := by
  by_cases hs : s = ""
  · subst hs
    rfl
  · have hru : remove_extra_spaces s = (removeExtraSpacesL s.data).asString := by
      rw [remove_extra_spaces, if_neg hs]
    by_cases h2 : remove_extra_spaces s = ""
    · rw [remove_extra_spaces, if_pos h2]
    · rw [remove_extra_spaces, if_neg h2, hru]
      show (removeExtraSpacesL (removeExtraSpacesL s.data)).asString =
        (removeExtraSpacesL s.data).asString
      rw [removeExtraSpacesL_fix]

/-- Run collapsing stated the way the spec phrases it: walking from the right,
a character equal to `c` that is immediately followed by a retained `c` is
dropped, so each maximal run of `c` contributes exactly one `c`. -/
def specCollapse (c : Char) (l : List Char) : List Char :=
  l.foldr (fun a acc => if a = c ∧ acc.head? = some c then acc else a :: acc) []

theorem head?_specCollapse (c : Char) :
    ∀ l : List Char, (specCollapse c l).head? = l.head?
  | [] => rfl
  | a :: rest => by
    rw [specCollapse, List.foldr_cons]
    by_cases h : a = c ∧ (List.foldr (fun a acc =>
        if a = c ∧ acc.head? = some c then acc else a :: acc) [] rest).head? = some c
    · rw [if_pos h]
      have := head?_specCollapse c rest
      rw [specCollapse] at this
      rw [this] at h ⊢
      cases rest with
      | nil => simp at h
      | cons b t =>
        simp only [List.head?_cons, Option.some.injEq] at h ⊢
        rw [h.2, h.1]
    · rw [if_neg h]
      rfl

theorem collapseRuns_eq_specCollapse (c : Char) :
    ∀ l, collapseRuns c l = specCollapse c l
  | [] => rfl
  | [a] => by
    rw [collapseRuns, specCollapse]
    simp
  | a :: b :: rest => by
    have hhead : (specCollapse c (b :: rest)).head? = some b := by
      rw [head?_specCollapse]
      rfl
    have hunf : specCollapse c (a :: b :: rest) =
        if a = c ∧ (specCollapse c (b :: rest)).head? = some c then specCollapse c (b :: rest)
        else a :: specCollapse c (b :: rest) := by
      rw [specCollapse, List.foldr_cons]
      rfl
    rw [collapseRuns, hunf, hhead]
    by_cases hab : a = c ∧ b = c
    · rw [if_pos hab, if_pos (by simp [hab.1, hab.2]),
        collapseRuns_eq_specCollapse c (b :: rest)]
    · rw [if_neg hab, if_neg (by
        intro hcontra
        simp only [Option.some.injEq] at hcontra
        exact hab ⟨hcontra.1, hcontra.2⟩),
        collapseRuns_eq_specCollapse c (b :: rest)]

/-- C6: on non-empty input, `remove_extra_spaces` collapses each run of spaces
to one space and each run of newlines to one newline (`specCollapse` states
run-collapsing independently of the implementation), strips every line, drops
lines that become empty, and rejoins the remaining lines with single newlines;
empty input is returned unchanged, and the spec example evaluates as stated. -/
theorem remove_extra_spaces_pipeline :
    (∀ s : String, s ≠ "" →
      remove_extra_spaces s =
        (joinLines '\n'
          (((splitOnChar '\n' (specCollapse '\n' (specCollapse ' ' s.data))).map
            pyStripL).filter (fun line => decide (line ≠ [])))).asString)
    ∧ remove_extra_spaces "" = ""
    ∧ remove_extra_spaces "a   b\n\n\nc  " = "a b\nc" := by
  refine ⟨?_, rfl, by decide⟩
  intro s hs
  rw [remove_extra_spaces, if_neg hs, removeExtraSpacesL,
    collapseRuns_eq_specCollapse, collapseRuns_eq_specCollapse]

/-- Witness for C6: the non-empty case applied at a concrete input. -/
theorem remove_extra_spaces_pipeline_witness :
    remove_extra_spaces " x  y \n\nz" =
      (joinLines '\n'
        (((splitOnChar '\n' (specCollapse '\n' (specCollapse ' ' (" x  y \n\nz").data))).map
          pyStripL).filter (fun line => decide (line ≠ [])))).asString :=
  remove_extra_spaces_pipeline.1 " x  y \n\nz" (by decide)

/-! ## `parse_page` main text (Part4_exo3.py lines 171-192)

After decomposing script/style/nav/footer/header subtrees, `parse_page` takes
`soup.get_text()` (modelled as the raw input string), strips each line, drops
empty lines, rejoins with `'\n'`, and stores
`main_text[:1000] + '...' if len(main_text) > 1000 else main_text`. -/

/-- The line-cleaning step of `parse_page` (lines 180-182). -/
def parsePageCleanL (raw : List Char) : List Char :=
  joinLines '\n' (((splitOnChar '\n' raw).map pyStripL).filter
    (fun line => decide (line ≠ [])))

/-- The `main_text` entry of the dictionary returned by `parse_page`
(line 191). -/
def parse_page_main_text (raw : String) : String :=
  let t := parsePageCleanL raw.data
  if t.length > 1000 then (t.take 1000).asString ++ "..." else t.asString

/-- C7: the `main_text` field equals the cleaned page text when that text has
at most 1000 characters, and otherwise equals exactly the first 1000 characters
of the cleaned text followed by the ellipsis marker `"..."` (so its length is
then 1003). -/
theorem parse_page_main_text_spec (raw : String) :
    ((parsePageCleanL raw.data).length ≤ 1000 →
      parse_page_main_text raw = (parsePageCleanL raw.data).asString)
    ∧ (1000 < (parsePageCleanL raw.data).length →
      parse_page_main_text raw = ((parsePageCleanL raw.data).take 1000).asString ++ "..."
      ∧ (parse_page_main_text raw).length = 1003) := by
  constructor
  · intro h
    rw [parse_page_main_text]
    exact if_neg (by omega)
  · intro h
    have heq : parse_page_main_text raw =
        ((parsePageCleanL raw.data).take 1000).asString ++ "..." := by
      rw [parse_page_main_text]
      exact if_pos (by omega)
    refine ⟨heq, ?_⟩
    rw [heq, String.length_append]
    have h1 : (((parsePageCleanL raw.data).take 1000).asString).length =
        ((parsePageCleanL raw.data).take 1000).length := rfl
    rw [h1, List.length_take]
    have h3 : ("..." : String).length = 3 := rfl
    omega

/-- Witness for C7: a short page is stored unchanged after cleaning, and a
1001-character page is truncated to 1000 characters plus the marker. -/
theorem parse_page_main_text_spec_witness :
    parse_page_main_text "  hi \nx " = "hi\nx"
    ∧ parse_page_main_text (List.replicate 1001 'a').asString =
      ((List.replicate 1001 'a').take 1000).asString ++ "..." := by
  have hrepl_ne : List.replicate 1001 'a' ≠ [] := by
    intro hcontra
    have hlen := congrArg List.length hcontra
    rw [List.length_replicate] at hlen
    simp at hlen
  have hhead : ∀ x ∈ (List.replicate 1001 'a').head?, pyIsSpaceChar x = false := by
    intro x hx
    rw [Option.mem_def, List.head?_replicate, if_neg (by norm_num)] at hx
    cases hx
    rfl
  constructor
  · have h := (parse_page_main_text_spec "  hi \nx ").1 (by decide)
    rw [h]
    decide
  · have hclean : parsePageCleanL ((List.replicate 1001 'a').asString).data =
        List.replicate 1001 'a' := by
      have hd : ((List.replicate 1001 'a').asString).data = List.replicate 1001 'a' := rfl
      have hnm : '\n' ∉ List.replicate 1001 'a' := by
        intro hmem
        rw [List.mem_replicate] at hmem
        exact absurd hmem.2 (by decide)
      rw [hd, parsePageCleanL, splitOnChar_no_sep '\n' _ hnm, List.map_cons, List.map_nil]
      have hstr : pyStripL (List.replicate 1001 'a') = List.replicate 1001 'a' := by
        rw [pyStripL_eq, dropWhile_eq_self_of_head _ hhead, pyDropEnd,
          List.reverse_replicate, dropWhile_eq_self_of_head _ hhead,
          List.reverse_replicate]
      rw [hstr]
      have hf : List.filter (fun line => decide (line ≠ [])) [List.replicate 1001 'a'] =
          [List.replicate 1001 'a'] :=
        List.filter_eq_self.mpr (fun a ha => by
          rw [List.mem_singleton] at ha
          subst ha
          exact decide_eq_true hrepl_ne)
      rw [hf]
      rfl
    have h := ((parse_page_main_text_spec (List.replicate 1001 'a').asString).2
      (by rw [hclean, List.length_replicate]; norm_num)).1
    rw [h, hclean]

/-! ## `extract_domain` (Part4_exo2.py lines 77-123)

The Python function returns `""` on empty input, prepends `"http://"` when the
URL starts with none of `http://`, `https://`, `//`, parses with
`urllib.parse.urlparse`, takes `parsed.netloc or parsed.path.split('/')[0]`,
and reduces the host by the dotted-label heuristic.  `urlsplit` (CPython with
the CVE-2019-9636 fixes) first deletes every tab, CR and LF character from the
URL, extracts the netloc as the characters after `//` up to the first of `/`,
`?`, `#`, raises `ValueError("Invalid IPv6 URL")` when the netloc contains an
unmatched square bracket, and later runs `_checknetloc`, which returns at once
for empty or all-ASCII netlocs and can raise `ValueError` for non-ASCII
netlocs whose NFKC normalization introduces a URL delimiter (e.g. `"℀"`,
which normalizes to `"a/c"`).  The byte removal and both raising behaviours
are part of the model below. -/

/-- Python `str.startswith` for string literals. -/
def pyStartsWith (s pat : String) : Bool :=
  pat.data.isPrefixOf s.data

/-- The tuple test `url.startswith(('http://', 'https://', '//'))` (line 101). -/
def hasUrlSchemePre (url : String) : Bool :=
  pyStartsWith url "http://" || pyStartsWith url "https://" || pyStartsWith url "//"

/-- Line 102: prepend the scheme when absent. -/
def urlPrefixed (url : String) : List Char :=
  if hasUrlSchemePre url then url.data else "http://".data ++ url.data

/-- `urlsplit`'s removal of `_UNSAFE_URL_BYTES_TO_REMOVE`: every tab, CR and
LF character is deleted from the URL before any parsing. -/
def stripUnsafeBytes (l : List Char) : List Char :=
  l.filter (fun c => !(c = '\t' || c = '\r' || c = '\n'))

/-- Strip `scheme://` (or the bare `//`): the characters `urlparse` scans for
the netloc.  By construction the argument starts with one of the three
prefixes checked on line 101. -/
def schemeRemainder (u : List Char) : List Char :=
  if ("http://".data).isPrefixOf u then u.drop 7
  else if ("https://".data).isPrefixOf u then u.drop 8
  else u.drop 2

/-- A character ending the netloc component in `urlsplit`. -/
def isNetlocEnd (c : Char) : Bool :=
  c = '/' || c = '?' || c = '#'

/-- `urlparse(...).netloc`: everything after `//` up to `/`, `?` or `#`. -/
def rawNetloc (u : List Char) : List Char :=
  u.takeWhile (fun c => !isNetlocEnd c)

/-- Line 106, `parsed.netloc or parsed.path.split('/')[0]`: when the netloc is
empty (falsy), fall back to the first `/`-segment of `parsed.path` (the
remaining characters before `?`/`#`). -/
def hostFallback (u : List Char) : List Char :=
  if rawNetloc u = [] then
    (((u.dropWhile (fun c => !isNetlocEnd c)).takeWhile
      (fun c => !(c = '?' || c = '#'))).takeWhile (fun c => !(c = '/')))
  else rawNetloc u

/-- `_checknetloc`: CPython returns immediately for an empty or all-ASCII
netloc; for a non-ASCII netloc it raises `ValueError` exactly when NFKC
normalization changes the netloc and introduces one of `/?#@:` (the real
message embeds the netloc).  NFKC normalization is outside this model, so the
non-ASCII branch is over-approximated as always raising; the approximation
agrees with CPython on every ASCII input (the only inputs the theorems below
quantify over) and on NFKC-expanding inputs such as `"℀"`, and differs only
on non-ASCII netlocs that NFKC normalization leaves harmless. -/
def pyChecknetloc (netloc : List Char) : Except String Unit :=
  if netloc = [] ∨ netloc.all (fun c => c.toNat ≤ 127) then Except.ok ()
  else Except.error "netloc contains invalid characters under NFKC normalization"

/-- `urlparse` + line 106 of the source on the byte-stripped URL: the
`ValueError("Invalid IPv6 URL")` that `urlsplit` raises when the netloc
contains an unmatched square bracket, then the `_checknetloc` validation,
then the host string.  (CPython 3.11+ additionally validates hosts that
contain a matched `[`...`]` pair via `_check_bracketed_host`; that path is not
modelled because every theorem below excludes square brackets entirely.) -/
def pyUrlsplitHost (u : List Char) : Except String (List Char) :=
  if ('[' ∈ rawNetloc u ∧ ']' ∉ rawNetloc u) ∨ (']' ∈ rawNetloc u ∧ '[' ∉ rawNetloc u) then
    Except.error "Invalid IPv6 URL"
  else
    match pyChecknetloc (rawNetloc u) with
    | Except.error e => Except.error e
    | Except.ok _ => Except.ok (hostFallback u)

/-- The host actually used by `extract_domain url` (computed on the
tab/CR/LF-stripped prefixed URL). -/
def hostOf (url : String) : List Char :=
  hostFallback (schemeRemainder (stripUnsafeBytes (urlPrefixed url)))

/-- The two-part-TLD heuristic list of line 120. -/
def tldSet : List (List Char) :=
  ["co", "com", "ac", "gov", "org", "net"].map String.data

/-- Lines 112-123: split the host on `.`; at most 2 labels are returned
unchanged; with at least 3 labels the last 3 are kept when the second-to-last
label is in `tldSet`, otherwise the last 2. -/
def reduceDomain (netloc : List Char) : List Char :=
  let parts := splitOnChar '.' netloc
  if parts.length ≤ 2 then netloc
  else if 3 ≤ parts.length ∧ parts.getD (parts.length - 2) [] ∈ tldSet then
    joinLines '.' (parts.drop (parts.length - 3))
  else
    joinLines '.' (parts.drop (parts.length - 2))

/-- `extract_domain` (Part4_exo2.py lines 77-123).  A raised `ValueError` is
modelled as `Except.error`. -/
def extract_domain (url : String) (include_subdomain : Bool := false) :
    Except String String :=
  if url = "" then Except.ok ""
  else
    match pyUrlsplitHost (schemeRemainder (stripUnsafeBytes (urlPrefixed url))) with
    | Except.error e => Except.error e
    | Except.ok netloc =>
      if include_subdomain then Except.ok netloc.asString
      else Except.ok (reduceDomain netloc).asString

theorem mem_of_mem_schemeRemainder {a : Char} {u : List Char}
    (h : a ∈ schemeRemainder u) : a ∈ u := by
  rw [schemeRemainder] at h
  split at h
  · exact ((List.drop_suffix 7 u).sublist).mem h
  · split at h
    · exact ((List.drop_suffix 8 u).sublist).mem h
    · exact ((List.drop_suffix 2 u).sublist).mem h

theorem mem_of_mem_stripUnsafeBytes {a : Char} {l : List Char}
    (h : a ∈ stripUnsafeBytes l) : a ∈ l :=
  List.mem_of_mem_filter h

theorem mem_url_of_mem_rawNetloc {a : Char} {url : String}
    (hmem : a ∈ rawNetloc (schemeRemainder (stripUnsafeBytes (urlPrefixed url)))) :
    a ∈ ("http://".data) ∨ a ∈ url.data := by
  have hpre := List.takeWhile_prefix (l := schemeRemainder (stripUnsafeBytes (urlPrefixed url)))
    (fun c => !isNetlocEnd c)
  have h1 : a ∈ schemeRemainder (stripUnsafeBytes (urlPrefixed url)) := hpre.sublist.mem hmem
  have h2 : a ∈ stripUnsafeBytes (urlPrefixed url) := mem_of_mem_schemeRemainder h1
  have h3 : a ∈ urlPrefixed url := mem_of_mem_stripUnsafeBytes h2
  rw [urlPrefixed] at h3
  split at h3
  · exact Or.inr h3
  · exact List.mem_append.mp h3

theorem not_mem_rawNetloc_of_url {a : Char} {url : String}
    (ha : a ∉ ("http://".data)) (h : a ∉ url.data) :
    a ∉ rawNetloc (schemeRemainder (stripUnsafeBytes (urlPrefixed url))) := by
  intro hmem
  rcases mem_url_of_mem_rawNetloc hmem with h3 | h3
  · exact ha h3
  · exact h h3

theorem ascii_rawNetloc_of_url {url : String}
    (hascii : ∀ c ∈ url.data, c.toNat ≤ 127) :
    ∀ a ∈ rawNetloc (schemeRemainder (stripUnsafeBytes (urlPrefixed url))), a.toNat ≤ 127 := by
  intro a hmem
  rcases mem_url_of_mem_rawNetloc hmem with h3 | h3
  · have hall : ∀ c ∈ ("http://".data : List Char), c.toNat ≤ 127 := by decide
    exact hall a h3
  · exact hascii a h3

theorem pyUrlsplitHost_ok_of_ascii_no_brackets {url : String}
    (hascii : ∀ c ∈ url.data, c.toNat ≤ 127)
    (h1 : '[' ∉ url.data) (h2 : ']' ∉ url.data) :
    pyUrlsplitHost (schemeRemainder (stripUnsafeBytes (urlPrefixed url))) =
      Except.ok (hostOf url) := by
  have hbr : ¬ (('[' ∈ rawNetloc (schemeRemainder (stripUnsafeBytes (urlPrefixed url))) ∧
      ']' ∉ rawNetloc (schemeRemainder (stripUnsafeBytes (urlPrefixed url)))) ∨
      (']' ∈ rawNetloc (schemeRemainder (stripUnsafeBytes (urlPrefixed url))) ∧
      '[' ∉ rawNetloc (schemeRemainder (stripUnsafeBytes (urlPrefixed url))))) := by
    intro hcontra
    rcases hcontra with ⟨hin, _⟩ | ⟨hin, _⟩
    · exact not_mem_rawNetloc_of_url (by decide) h1 hin
    · exact not_mem_rawNetloc_of_url (by decide) h2 hin
  have hchk : pyChecknetloc (rawNetloc (schemeRemainder (stripUnsafeBytes (urlPrefixed url)))) =
      Except.ok () := by
    rw [pyChecknetloc, if_pos (Or.inr (List.all_eq_true.mpr
      (fun c hc => decide_eq_true (ascii_rawNetloc_of_url hascii c hc))))]
  rw [pyUrlsplitHost, if_neg hbr, hchk]
  rfl

/-- C4 counterexample: the claim quantifies over every URL string and asserts
the parse never fails on scheme-less input and reduces the parsed host by the
label rules.  The code raises `ValueError("Invalid IPv6 URL")` on the
scheme-less input `"]"`, and on `"ftp://example.com/x"` (which has a scheme,
but not one of the three literal prefixes the code tests) it prepends
`"http://"` anyway and returns `"ftp:"` instead of a host-derived domain. -/
theorem extract_domain_claim_counterexample :
    extract_domain "]" false = Except.error "Invalid IPv6 URL"
    ∧ extract_domain "ftp://example.com/x" false = Except.ok "ftp:" :=
  ⟨rfl, rfl⟩

/-- C4 (amended): for ASCII URL strings without square brackets,
`extract_domain` prepends `http://` exactly when the URL starts with none of
`http://`/`https://`/`//` (and then behaves as on the prefixed URL), extracts
the host from the tab/CR/LF-stripped URL (so `"a\nb.com"` gives `"ab.com"`),
returns it unchanged for `include_subdomain = true`, and otherwise reduces it
by the label rules: at most 2 dot-separated labels unchanged; at least 3
labels with second-to-last in {co, com, ac, gov, org, net} keep the last 3
labels; otherwise the last 2.  The spec examples evaluate as stated. -/
theorem extract_domain_behavior :
    (∀ (url : String) (b : Bool), url ≠ "" → hasUrlSchemePre url = false →
      extract_domain url b = extract_domain ("http://" ++ url) b)
    ∧ (∀ url : String, url ≠ "" → (∀ c ∈ url.data, c.toNat ≤ 127) →
      '[' ∉ url.data → ']' ∉ url.data →
      extract_domain url true = Except.ok (hostOf url).asString
      ∧ extract_domain url false = Except.ok (reduceDomain (hostOf url)).asString)
    ∧ (∀ host : List Char,
      ((splitOnChar '.' host).length ≤ 2 → reduceDomain host = host)
      ∧ (3 ≤ (splitOnChar '.' host).length →
          (splitOnChar '.' host).getD ((splitOnChar '.' host).length - 2) [] ∈ tldSet →
          reduceDomain host =
            joinLines '.' ((splitOnChar '.' host).drop ((splitOnChar '.' host).length - 3)))
      ∧ (3 ≤ (splitOnChar '.' host).length →
          (splitOnChar '.' host).getD ((splitOnChar '.' host).length - 2) [] ∉ tldSet →
          reduceDomain host =
            joinLines '.' ((splitOnChar '.' host).drop ((splitOnChar '.' host).length - 2))))
    ∧ extract_domain "https://www.example.com/path?q=1" false = Except.ok "example.com"
    ∧ extract_domain "https://www.example.com/path?q=1" true = Except.ok "www.example.com"
    ∧ extract_domain "https://subdomain.example.co.uk/page" false = Except.ok "example.co.uk"
    ∧ extract_domain "api.github.com" false = Except.ok "github.com"
    ∧ extract_domain "a\nb.com" false = Except.ok "ab.com" := by
  refine ⟨?_, ?_, ?_, rfl, rfl, rfl, rfl, rfl⟩
  · intro url b hne hpre
    have hne2 : ("http://" ++ url) ≠ "" := by
      intro hcontra
      have hd := congrArg String.data hcontra
      rw [String.data_append] at hd
      simp at hd
    have hpre2 : hasUrlSchemePre ("http://" ++ url) = true := by
      rw [hasUrlSchemePre, pyStartsWith]
      have hp : ("http://".data).isPrefixOf (("http://" ++ url)).data = true := by
        rw [String.data_append]
        exact List.isPrefixOf_iff_prefix.mpr (List.prefix_append _ _)
      rw [hp]
      simp
    have hu : urlPrefixed ("http://" ++ url) = urlPrefixed url := by
      rw [urlPrefixed, urlPrefixed, if_pos hpre2, if_neg (by rw [hpre]; simp),
        String.data_append]
    rw [extract_domain, extract_domain, if_neg hne, if_neg hne2, hu]
  · intro url hne hascii h1 h2
    have hok := pyUrlsplitHost_ok_of_ascii_no_brackets hascii h1 h2
    constructor
    · rw [extract_domain, if_neg hne, hok]
      rfl
    · rw [extract_domain, if_neg hne, hok]
      rfl
  · intro host
    refine ⟨?_, ?_, ?_⟩
    · intro hlen
      rw [reduceDomain]
      rw [if_pos hlen]
    · intro hlen hmem
      rw [reduceDomain]
      rw [if_neg (by omega), if_pos ⟨hlen, hmem⟩]
    · intro hlen hmem
      rw [reduceDomain]
      rw [if_neg (by omega), if_neg (by intro hcontra; exact hmem hcontra.2)]

/-- Witness for C4: the scheme-prepending equality and the
`include_subdomain = true` host identity at concrete URLs. -/
theorem extract_domain_behavior_witness :
    extract_domain "api.github.com" false = extract_domain "http://api.github.com" false
    ∧ extract_domain "www.google.fr" true = Except.ok ((hostOf "www.google.fr").asString) :=
  ⟨extract_domain_behavior.1 "api.github.com" false (by decide) (by decide),
   (extract_domain_behavior.2.1 "www.google.fr" (by decide) (by decide) (by decide)
     (by decide)).1⟩

/-- C10 counterexample: `extract_domain` is not total — on the input `"["`
the modelled `urlparse` raises `ValueError("Invalid IPv6 URL")`, so the call
raises instead of returning a string. -/
theorem extract_domain_bracket_counterexample :
    extract_domain "[" false = Except.error "Invalid IPv6 URL" := rfl

/-- C10 (amended): `extract_domain` returns a string without raising for every
ASCII input string containing no square bracket; the empty string maps to
`""`; and besides the unmatched-bracket inputs, `urlparse`'s NFKC netloc
validation makes the bracket-free non-ASCII input `"℀"` raise as well, which
is why the totality statement is restricted to ASCII. -/
theorem extract_domain_total_no_brackets :
    (∀ (url : String) (b : Bool), (∀ c ∈ url.data, c.toNat ≤ 127) →
      '[' ∉ url.data → ']' ∉ url.data →
      ∃ res, extract_domain url b = Except.ok res)
    ∧ (∀ b : Bool, extract_domain "" b = Except.ok "")
    ∧ (∃ e, extract_domain "℀" false = Except.error e) := by
  refine ⟨?_, fun b => rfl,
    ⟨"netloc contains invalid characters under NFKC normalization", rfl⟩⟩
  intro url b hascii h1 h2
  by_cases hne : url = ""
  · subst hne
    exact ⟨"", rfl⟩
  · rw [extract_domain, if_neg hne, pyUrlsplitHost_ok_of_ascii_no_brackets hascii h1 h2]
    cases b
    · exact ⟨(reduceDomain (hostOf url)).asString, rfl⟩
    · exact ⟨(hostOf url).asString, rfl⟩

/-- Witness for C10: a bracket-free non-URL input returns without raising. -/
theorem extract_domain_total_no_brackets_witness :
    ∃ res, extract_domain "definitely not a url" false = Except.ok res :=
  extract_domain_total_no_brackets.1 "definitely not a url" false (by decide) (by decide)
    (by decide)

/-! ## HTML model and `scrape_article` (Part4_exo_final.py lines 117-202)

HTML documents fetched by BeautifulSoup are modelled as trees of element and
text nodes; a parsed page is a list of root nodes.  `select_one` searches in
document (preorder) order; `find_all(tag)` collects matching descendants in
document order; `get_text(strip=True)` concatenates the stripped text nodes. -/

/-- A BeautifulSoup node: a tag with attributes and children, or a string. -/
inductive Node where
  | text (s : String)
  | elem (tag : String) (attrs : List (String × String)) (children : List Node)

def Node.childrenOf : Node → List Node
  | Node.text _ => []
  | Node.elem _ _ cs => cs

def Node.attrsOf : Node → List (String × String)
  | Node.text _ => []
  | Node.elem _ a _ => a

/-- `tag.get(name)`: the attribute value, or `None`. -/
def getAttr (attrs : List (String × String)) (a : String) : Option String :=
  (attrs.find? (fun p => p.1 = a)).map (fun p => p.2)

/-- The CSS selectors used by `scrape_article` (lines 145-152): a tag-name
selector or a `[attr*="sub"]` attribute-substring selector. -/
inductive Sel where
  | tagName (t : String)
  | attrContains (a : String) (sub : String)
deriving DecidableEq

/-- Python-style substring test (`sub in hay`) over character lists. -/
def containsSub : List Char → List Char → Bool
  | [], sub => sub.isPrefixOf []
  | a :: t, sub => sub.isPrefixOf (a :: t) || containsSub t sub

/-- Whether a node matches one of the two selector shapes. -/
def selMatches : Sel → Node → Bool
  | Sel.tagName t, Node.elem tag _ _ => tag = t
  | Sel.attrContains a sub, Node.elem _ attrs _ =>
    match getAttr attrs a with
    | some v => containsSub v.data sub.data
    | none => false
  | _, Node.text _ => false

/-- First node (preorder document order) satisfying `p`: an element is visited
before its children, children before later siblings. -/
def selectFirstList (p : Node → Bool) : List Node → Option Node
  | [] => none
  | (Node.text _) :: rest => selectFirstList p rest
  | (Node.elem t a cs) :: rest =>
    if p (Node.elem t a cs) then some (Node.elem t a cs)
    else
      match selectFirstList p cs with
      | some r => some r
      | none => selectFirstList p rest

/-- `soup.select_one(selector)`. -/
def selectOne (s : Sel) (doc : List Node) : Option Node :=
  selectFirstList (selMatches s) doc

/-- The prioritized selector list of lines 145-152, in source order. -/
def articleSelectors : List Sel :=
  [Sel.tagName "article",
   Sel.attrContains "class" "article-content",
   Sel.attrContains "class" "article-body",
   Sel.attrContains "class" "post-content",
   Sel.attrContains "id" "article-content",
   Sel.tagName "main"]

/-- The loop of lines 154-157: try each selector in order, keep the first
match, never look further once one matched. -/
def firstMatching : List Sel → List Node → Option Node
  | [], _ => none
  | s :: rest, doc =>
    match selectOne s doc with
    | some b => some b
    | none => firstMatching rest doc

/-- `find_all(tag)` over a node list: matching descendants in document order
(an element matching the tag is listed before its own matching descendants). -/
def findAllTagList (t : String) : List Node → List Node
  | [] => []
  | (Node.text _) :: rest => findAllTagList t rest
  | (Node.elem tag a cs) :: rest =>
    (if tag = t then [Node.elem tag a cs] else []) ++ findAllTagList t cs ++
      findAllTagList t rest

/-- `get_text(strip=True)` over a node list: concatenate the text nodes in
document order, each stripped. -/
def getTextStripList : List Node → String
  | [] => ""
  | (Node.text s) :: rest => (pyStripL s.data).asString ++ getTextStripList rest
  | (Node.elem _ _ cs) :: rest => getTextStripList cs ++ getTextStripList rest

/-- Lines 160-166: with a body found, join the non-empty stripped texts of its
`<p>` descendants with a blank line; otherwise fall back to the page text. -/
def scrapeBodyText (doc : List Node) (fallback : String) : String :=
  match firstMatching articleSelectors doc with
  | some body =>
    String.intercalate "\n\n"
      (((findAllTagList "p" body.childrenOf).map
        (fun p => getTextStripList p.childrenOf)).filter (fun t => decide (t ≠ "")))
  | none => fallback

/-- `tag.decompose()` loop of lines 138-139: drop every element whose tag is
in `bad`, together with its whole subtree. -/
def stripTagsList (bad : List String) : List Node → List Node
  | [] => []
  | (Node.text s) :: rest => Node.text s :: stripTagsList bad rest
  | (Node.elem t a cs) :: rest =>
    if t ∈ bad then stripTagsList bad rest
    else Node.elem t a (stripTagsList bad cs) :: stripTagsList bad rest

/-- Line 174, `img.get('src') or img.get('data-src')`: Python `or` falls
through on `None` and on the empty (falsy) string. -/
def imgSource (attrs : List (String × String)) : Option String :=
  match getAttr attrs "src" with
  | some v => if v = "" then getAttr attrs "data-src" else some v
  | none => getAttr attrs "data-src"

/-- Lines 176-183: protocol-relative sources get `https:` prefixed,
root-relative sources get `https://` plus `extract_domain(article_url)`
prefixed (which may raise, hence `Except`), sources not starting with `http`
are skipped (`none`), anything else is kept as is. -/
def resolveSrc (articleUrl src : String) : Except String (Option String) :=
  if pyStartsWith src "//" then Except.ok (some ("https:" ++ src))
  else if pyStartsWith src "/" then
    match extract_domain articleUrl false with
    | Except.error e => Except.error e
    | Except.ok d => Except.ok (some ("https://" ++ d ++ src))
  else if pyStartsWith src "http" then Except.ok (some src)
  else Except.ok none

/-- One stored image record (lines 185-188). -/
structure ImgRecord where
  src : String
  alt : String
deriving DecidableEq

/-- The image loop of lines 172-188 over the `<img>` elements in document
order. -/
def harvestFromImgs (articleUrl : String) : List Node → Except String (List ImgRecord)
  | [] => Except.ok []
  | n :: rest =>
    match imgSource n.attrsOf with
    | none => harvestFromImgs articleUrl rest
    | some src =>
      if src = "" then harvestFromImgs articleUrl rest
      else
        match resolveSrc articleUrl src with
        | Except.error e => Except.error e
        | Except.ok none => harvestFromImgs articleUrl rest
        | Except.ok (some s) =>
          match harvestFromImgs articleUrl rest with
          | Except.error e => Except.error e
          | Except.ok tail =>
            Except.ok ({ src := s, alt := (getAttr n.attrsOf "alt").getD "" } :: tail)

/-- `for img in soup.find_all('img')` (line 173). -/
def harvestImages (articleUrl : String) (doc : List Node) :
    Except String (List ImgRecord) :=
  harvestFromImgs articleUrl (findAllTagList "img" doc)

/-- The fields of the `parse_page` dictionary that `scrape_article` reads. -/
structure PageData where
  url : String
  domain : String
  title : String
  h1Tags : List String
  mainText : String

/-- The dictionary returned by a successful `scrape_article` (lines 190-198). -/
structure Article where
  url : String
  domain : String
  pageTitle : String
  articleTitle : String
  mainText : String
  images : List ImgRecord
  imageCount : Nat

/-- `RSSNewsScraper.scrape_article` (lines 117-202).  The fetch/parse step
(`parse_page` + `get_soup`, lines 131-134) is the function's only external
input and is passed as an `Except`; the surrounding `try/except` turns any
raised exception into the empty dictionary, modelled as `none`. -/
def scrape_article (articleUrl : String)
    (fetched : Except String (PageData × List Node)) : Option Article :=
  match fetched with
  | Except.error _ => none
  | Except.ok (pageData, soup) =>
    let soup2 := stripTagsList
      ["script", "style", "nav", "footer", "header", "aside", "iframe"] soup
    let mainText := remove_extra_spaces (scrapeBodyText soup2 pageData.mainText)
    match harvestImages articleUrl soup2 with
    | Except.error _ => none
    | Except.ok images =>
      some { url := articleUrl
             domain := pageData.domain
             pageTitle := pageData.title
             articleTitle := match pageData.h1Tags with
               | [] => pageData.title
               | h :: _ => h
             mainText := mainText
             images := images
             imageCount := images.length }

theorem firstMatching_of_found (doc : List Node) (b : Node) :
    ∀ (pre : List Sel) (s : Sel) (post : List Sel),
      (∀ s' ∈ pre, selectOne s' doc = none) → selectOne s doc = some b →
      firstMatching (pre ++ s :: post) doc = some b
  | [], s, post, _, hs => by
    rw [List.nil_append, firstMatching, hs]
  | p :: pre, s, post, hpre, hs => by
    rw [List.cons_append, firstMatching, hpre p (List.mem_cons_self _ _)]
    exact firstMatching_of_found doc b pre s post
      (fun q hq => hpre q (List.mem_cons_of_mem _ hq)) hs

theorem firstMatching_of_none (doc : List Node) :
    ∀ sels : List Sel, (∀ s ∈ sels, selectOne s doc = none) →
      firstMatching sels doc = none
  | [], _ => rfl
  | s :: sels, h => by
    rw [firstMatching, h s (List.mem_cons_self _ _)]
    exact firstMatching_of_none doc sels (fun q hq => h q (List.mem_cons_of_mem _ hq))

/-- C2: `scrape_article` selects the body with the first selector of
`articleSelectors` (in source order) that matches; once one matches, the later
selectors are irrelevant (any continuation of the selector list yields the
same body); the resulting body text is the blank-line join of the non-empty
stripped `<p>` texts of the body; and when no selector matches, the body text
is the supplied `parse_page` fallback text. -/
theorem scrape_article_selector_priority (doc : List Node) (fb : String) :
    (∀ (pre : List Sel) (s : Sel) (post : List Sel) (b : Node),
      articleSelectors = pre ++ s :: post →
      (∀ s' ∈ pre, selectOne s' doc = none) →
      selectOne s doc = some b →
      scrapeBodyText doc fb =
        String.intercalate "\n\n"
          (((findAllTagList "p" b.childrenOf).map
            (fun p => getTextStripList p.childrenOf)).filter (fun t => decide (t ≠ "")))
      ∧ ∀ post' : List Sel, firstMatching (pre ++ s :: post') doc = some b)
    ∧ ((∀ s ∈ articleSelectors, selectOne s doc = none) → scrapeBodyText doc fb = fb) := by
  constructor
  · intro pre s post b heq hpre hs
    have hf : firstMatching articleSelectors doc = some b := by
      rw [heq]
      exact firstMatching_of_found doc b pre s post hpre hs
    constructor
    · rw [scrapeBodyText, hf]
    · intro post'
      exact firstMatching_of_found doc b pre s post' hpre hs
  · intro h
    rw [scrapeBodyText, firstMatching_of_none doc articleSelectors h]

/-- Witness for C2: a document whose root `<article>` holds two paragraphs
yields both paragraph texts separated by a blank line (first selector wins),
and a document matching no selector yields the fallback text. -/
theorem scrape_article_selector_priority_witness :
    scrapeBodyText [Node.elem "article" []
        [Node.elem "p" [] [Node.text " Hello "], Node.elem "p" [] [Node.text "World"]]]
      "FALLBACK" = "Hello\n\nWorld"
    ∧ scrapeBodyText [Node.elem "div" [] [Node.text "nothing"]] "FALLBACK" = "FALLBACK" := by
  constructor
  · have h := (scrape_article_selector_priority
      [Node.elem "article" []
        [Node.elem "p" [] [Node.text " Hello "], Node.elem "p" [] [Node.text "World"]]]
      "FALLBACK").1 []
      (Sel.tagName "article")
      [Sel.attrContains "class" "article-content",
       Sel.attrContains "class" "article-body",
       Sel.attrContains "class" "post-content",
       Sel.attrContains "id" "article-content",
       Sel.tagName "main"]
      (Node.elem "article" []
        [Node.elem "p" [] [Node.text " Hello "], Node.elem "p" [] [Node.text "World"]])
      rfl
      (by intro s' hcontra; exact absurd hcontra (List.not_mem_nil _))
      (by simp [selectOne, selectFirstList, selMatches])
    rw [h.1]
    simp [findAllTagList, getTextStripList, Node.childrenOf]
    decide
  · refine (scrape_article_selector_priority
      [Node.elem "div" [] [Node.text "nothing"]] "FALLBACK").2 ?_
    intro s hs
    fin_cases hs <;>
      simp [selectOne, selectFirstList, selMatches, getAttr, List.find?]

/-- An absolute stored URL in the sense of the data-model invariant. -/
def isAbsoluteUrl (s : String) : Bool :=
  pyStartsWith s "http://" || pyStartsWith s "https://"

/-- C3 counterexample: the claim says every stored image URL is absolute and
that root-relative sources get the page's scheme+domain.  The code stores
`"httpimg.png"` unchanged (it starts with `"http"`, so it is not dropped, yet
it is not absolute); it prefixes `https` even on an `http` page; and it uses
`extract_domain`'s reduced domain, dropping the page's `www` subdomain. -/
theorem image_resolution_counterexample :
    harvestImages "https://site.com/page" [Node.elem "img" [("src", "httpimg.png")] []] =
      Except.ok [{ src := "httpimg.png", alt := "" }]
    ∧ isAbsoluteUrl "httpimg.png" = false
    ∧ harvestImages "http://site.com/page" [Node.elem "img" [("src", "/img.png")] []] =
      Except.ok [{ src := "https://site.com/img.png", alt := "" }]
    ∧ harvestImages "https://www.site.com/page" [Node.elem "img" [("src", "/img.png")] []] =
      Except.ok [{ src := "https://site.com/img.png", alt := "" }] := by
  refine ⟨?_, rfl, ?_, ?_⟩
  · have hfind : findAllTagList "img" [Node.elem "img" [("src", "httpimg.png")] []] =
        [Node.elem "img" [("src", "httpimg.png")] []] := by
      simp [findAllTagList]
    unfold harvestImages
    rw [hfind]
    rfl
  · have hfind : findAllTagList "img" [Node.elem "img" [("src", "/img.png")] []] =
        [Node.elem "img" [("src", "/img.png")] []] := by
      simp [findAllTagList]
    unfold harvestImages
    rw [hfind]
    rfl
  · have hfind : findAllTagList "img" [Node.elem "img" [("src", "/img.png")] []] =
        [Node.elem "img" [("src", "/img.png")] []] := by
      simp [findAllTagList]
    unfold harvestImages
    rw [hfind]
    rfl

theorem pyStartsWith_of_data_pre {s p : String} (h : p.data <+: s.data) :
    pyStartsWith s p = true :=
  List.isPrefixOf_iff_prefix.mpr h

theorem harvestFromImgs_all_http (url : String)
    (hascii : ∀ c ∈ url.data, c.toNat ≤ 127)
    (h1 : '[' ∉ url.data) (h2 : ']' ∉ url.data) :
    ∀ ns : List Node, ∃ recs, harvestFromImgs url ns = Except.ok recs
      ∧ ∀ rec ∈ recs, pyStartsWith rec.src "http" = true
  | [] => ⟨[], rfl, by simp⟩
  | n :: rest => by
    obtain ⟨recs, hr, hall⟩ := harvestFromImgs_all_http url hascii h1 h2 rest
    rw [harvestFromImgs]
    match hsrc : imgSource n.attrsOf with
    | none => exact ⟨recs, hr, hall⟩
    | some src =>
      dsimp only
      by_cases hempty : src = ""
      · rw [if_pos hempty]
        exact ⟨recs, hr, hall⟩
      · rw [if_neg hempty]
        by_cases hpp : pyStartsWith src "//" = true
        · rw [resolveSrc, if_pos hpp, hr]
          refine ⟨_, rfl, ?_⟩
          intro rec hrec
          rcases List.mem_cons.mp hrec with rfl | hrec'
          · refine pyStartsWith_of_data_pre ?_
            rw [String.data_append]
            exact (by decide : ("http".data : List Char) <+: "https:".data).trans
              (List.prefix_append _ _)
          · exact hall rec hrec'
        · by_cases hps : pyStartsWith src "/" = true
          · obtain ⟨d, hd⟩ :=
              extract_domain_total_no_brackets.1 url false hascii h1 h2
            rw [resolveSrc, if_neg hpp, if_pos hps, hd, hr]
            refine ⟨_, rfl, ?_⟩
            intro rec hrec
            rcases List.mem_cons.mp hrec with rfl | hrec'
            · refine pyStartsWith_of_data_pre ?_
              rw [String.data_append, String.data_append]
              exact ((by decide : ("http".data : List Char) <+: "https://".data).trans
                (List.prefix_append _ _)).trans (List.prefix_append _ _)
            · exact hall rec hrec'
          · by_cases hph : pyStartsWith src "http" = true
            · rw [resolveSrc, if_neg hpp, if_neg hps, if_pos hph, hr]
              refine ⟨_, rfl, ?_⟩
              intro rec hrec
              rcases List.mem_cons.mp hrec with rfl | hrec'
              · exact hph
              · exact hall rec hrec'
            · rw [resolveSrc, if_neg hpp, if_neg hps, if_neg hph]
              exact ⟨recs, hr, hall⟩

/-- C3 (amended): every image source taken from `src` or the `data-src`
fallback is resolved as follows — protocol-relative sources get `https:`
prefixed; root-relative sources get `https://` plus the `extract_domain`
domain of the page URL prefixed (a fixed `https` scheme and the reduced
domain, not the page's own scheme and host); any source that does not start
with `"http"` after these two rules is dropped.  For every ASCII page URL
without square brackets (on other URLs the `extract_domain` call inside the
loop can itself raise through `urlparse`) the loop succeeds and every stored
image URL starts with `"http"` (but need not be absolute). -/
theorem image_resolution_amended :
    (∀ (url : String) (doc : List Node), (∀ c ∈ url.data, c.toNat ≤ 127) →
      '[' ∉ url.data → ']' ∉ url.data →
      ∃ recs, harvestImages url doc = Except.ok recs
        ∧ ∀ rec ∈ recs, pyStartsWith rec.src "http" = true)
    ∧ (∀ url src : String, pyStartsWith src "//" = true →
        resolveSrc url src = Except.ok (some ("https:" ++ src)))
    ∧ (∀ url src d : String, pyStartsWith src "//" = false → pyStartsWith src "/" = true →
        extract_domain url false = Except.ok d →
        resolveSrc url src = Except.ok (some ("https://" ++ d ++ src)))
    ∧ (∀ url src : String, pyStartsWith src "//" = false → pyStartsWith src "/" = false →
        pyStartsWith src "http" = false → resolveSrc url src = Except.ok none) := by
  refine ⟨?_, ?_, ?_, ?_⟩
  · intro url doc hascii h1 h2
    unfold harvestImages
    exact harvestFromImgs_all_http url hascii h1 h2 (findAllTagList "img" doc)
  · intro url src hpp
    rw [resolveSrc, if_pos hpp]
  · intro url src d hpp hps hd
    rw [resolveSrc, if_neg (by rw [hpp]; simp), if_pos hps, hd]
  · intro url src hpp hps hph
    rw [resolveSrc, if_neg (by rw [hpp]; simp), if_neg (by rw [hps]; simp),
      if_neg (by rw [hph]; simp)]

/-- Witness for C3: a protocol-relative and a bare-relative source on a
concrete page. -/
theorem image_resolution_amended_witness :
    resolveSrc "https://news.example/a" "//cdn.x/img.png" =
      Except.ok (some ("https:" ++ "//cdn.x/img.png"))
    ∧ resolveSrc "https://news.example/a" "img.png" = Except.ok none
    ∧ ∃ recs, harvestImages "https://news.example/a"
        [Node.elem "img" [("src", "//cdn.x/img.png")] []] = Except.ok recs
        ∧ ∀ rec ∈ recs, pyStartsWith rec.src "http" = true :=
  ⟨image_resolution_amended.2.1 "https://news.example/a" "//cdn.x/img.png" rfl,
   image_resolution_amended.2.2.2 "https://news.example/a" "img.png" rfl rfl rfl,
   image_resolution_amended.1 "https://news.example/a"
     [Node.elem "img" [("src", "//cdn.x/img.png")] []] (by decide) (by decide) (by decide)⟩

/-- C8: when the fetch/parse step inside `scrape_article` fails, the call
returns the empty sentinel record (`None`-like empty dict, modelled `none`)
rather than propagating the exception; totality of `scrape_article` (its
return type is `Option Article`, not `Except`) models that no exception
reaches the caller. -/
theorem scrape_article_error_sentinel (articleUrl e : String) :
    scrape_article articleUrl (Except.error e) = none := rfl
